import Mathlib

/-!
Verification of the usercorn emulation-harness core.

This file gives a shallow embedding of the harness code (`go/usercorn.go`,
`go/kernel/posix/io.go`, `go/kernel/posix/mman.go`, `go/models/arch.go`) into
Lean 4 and proves properties of the embedded definitions.  Machine words are
modelled as `Nat` with explicit reduction modulo `2^64` wherever Go's `uint64`
overflow semantics matter.  Helpers that live outside the embedded files
(`models.Segment.Overlaps/Merge`, `align`, `u.Mmap`, `u.MemMapProt`, `Errno`)
are modelled from the specification text, as flagged in their doc comments.
-/

namespace UsercornProof

/-- Word modulus of the guest machine registers and addresses (Go `uint64`). -/
def u64Mod : Nat := 2 ^ 64

/-- Unicorn protection constant `PROT_READ`. -/
def PROT_READ : Nat := 1

/-- Unicorn protection constant `PROT_WRITE`. -/
def PROT_WRITE : Nat := 2

/-- Unicorn protection constant `PROT_EXEC`. -/
def PROT_EXEC : Nat := 4

/-- Unicorn protection constant `PROT_ALL`. -/
def PROT_ALL : Nat := 7

/-- Page size assumed by the loader path (`mask := uint64(4096 - 1)`). -/
def pageSize : Nat := 4096

/-- Loaded segment span, `models.Segment` in Go: `[Start, End)` with a
protection bitmask. -/
structure Segment where
  Start : Nat
  End : Nat
  Prot : Nat
deriving DecidableEq, Repr

/-- Modelled from the spec: `models.Segment.Overlaps` — two half-open spans
overlap when either start lies inside the other span ("repeatedly unioning
overlapping spans (by start/end, not by protection)"). -/
def Segment.Overlaps (s o : Segment) : Prop :=
  (s.Start ≥ o.Start ∧ s.Start < o.End) ∨ (o.Start ≥ s.Start ∧ o.Start < s.End)

instance (s o : Segment) : Decidable (s.Overlaps o) :=
  inferInstanceAs
    (Decidable ((s.Start ≥ o.Start ∧ s.Start < o.End) ∨ (o.Start ≥ s.Start ∧ o.Start < s.End)))

/-- Modelled from the spec: `models.Segment.Merge` — the union of the two
spans by start/end (in-place in Go, functional here), protection is the
bitwise OR of the constituents. -/
def Segment.Merge (s o : Segment) : Segment :=
  ⟨min s.Start o.Start, max s.End o.End, s.Prot ||| o.Prot⟩

/-- Raw loader segment (`models.SegmentData`): guest address, byte size,
protection.  The data payload is irrelevant to the merge step. -/
structure SegmentData where
  Addr : Nat
  Size : Nat
  Prot : Nat
deriving DecidableEq, Repr

/-- Modelled from the spec: the alignment helper `align(addr, size, true)`
rounds `addr` down and `addr+size` up to a page boundary, returning the
rounded base and the adjusted size. -/
def align (addr size : Nat) : Nat × Nat :=
  let base := addr / pageSize * pageSize
  let top := (addr + size + (pageSize - 1)) / pageSize * pageSize
  (base, top - base)

/-- Aligned span built for one raw segment at the top of `mapBinary`:
`addr, size := align(seg.Addr, seg.Size, true); s := &models.Segment{addr, addr + size, seg.Prot}`. -/
def alignSeg (seg : SegmentData) : Segment :=
  let p := align seg.Addr seg.Size
  ⟨p.1, p.1 + p.2, seg.Prot⟩

/-- One iteration of the merge loop in `mapBinary` (`usercorn.go:487-498`):
the new span `s` is merged into the first already-collected span it
overlaps; if it overlaps none, it is appended at the end. -/
def insertMerged (merged : List Segment) (s : Segment) : List Segment :=
  match merged with
  | [] => [s]
  | s2 :: rest => if s2.Overlaps s then s2.Merge s :: rest else s2 :: insertMerged rest s

/-- The whole merge step of `mapBinary` over a list of already-aligned spans. -/
def mergeSegments (spans : List Segment) : List Segment :=
  spans.foldl insertMerged []

/-- Merge step applied to raw segments, alignment included, exactly as the
`outer:` loop of `mapBinary` does. -/
def mapSegments (segs : List SegmentData) : List Segment :=
  mergeSegments (segs.map alignSeg)

/-- Address `a` lies inside span `s`. -/
def inSeg (s : Segment) (a : Nat) : Prop := s.Start ≤ a ∧ a < s.End

instance (s : Segment) (a : Nat) : Decidable (inSeg s a) :=
  inferInstanceAs (Decidable (s.Start ≤ a ∧ a < s.End))

/-- Address `a` is covered by some span of the list. -/
def covers (l : List Segment) (a : Nat) : Prop := ∃ s ∈ l, inSeg s a

/-- No two distinct spans of the list overlap. -/
def pairwiseDisjoint (l : List Segment) : Prop :=
  l.Pairwise (fun s t => ¬ s.Overlaps t)

instance (l : List Segment) : Decidable (pairwiseDisjoint l) :=
  List.instDecidablePairwise l

/-- Protection bits of a merged span as folded over its constituents. -/
def protOr (parts : List Segment) : Nat :=
  parts.foldr (fun p acc => p.Prot ||| acc) 0

/-- The protection of span `t` is the bitwise OR of the protections of a
nonempty collection of spans drawn from `segs` (its constituents). -/
def ProtOfParts (segs : List Segment) (t : Segment) : Prop :=
  ∃ parts : List Segment, parts ≠ [] ∧ (∀ p ∈ parts, p ∈ segs) ∧ t.Prot = protOr parts

/-- Loader symbol, `models.Symbol`: `End = 0` means unknown extent
(open-ended). -/
structure Symbol where
  Name : String
  Start : Nat
  End : Nat
deriving DecidableEq, Repr

/-- Candidate filter of the `symbolicate` closure in `Usercorn.Symbolicate`
(`usercorn.go:232-243`): keep symbols with `Start ≠ 0`, non-negative signed
distance `int64(addr - sym.Start)`, address within the extent (or `End == 0`,
open-ended) and a nonempty name; the Go map `nearest` keyed by distance is
represented by the in-order list of (distance, symbol) pairs. -/
def symCandidates (addr : Nat) (symbols : List Symbol) : List (Nat × Symbol) :=
  symbols.filterMap fun sym =>
    if sym.Start = 0 then none
    else
      let dist := (addr + u64Mod - sym.Start % u64Mod) % u64Mod
      if dist < 2 ^ 63 ∧ ((sym.Start + dist) % u64Mod ≤ sym.End ∨ sym.End = 0)
          ∧ sym.Name ≠ "" then
        some (dist, sym)
      else none

/-- Minimum over the candidate distances, mirroring Go's running
`if dist < min || min == -1` fold; `none` when there is no candidate. -/
def minDist : List (Nat × Symbol) → Option Nat
  | [] => none
  | (d, _) :: rest =>
    match minDist rest with
    | none => some d
    | some m => some (min d m)

/-- The `symbolicate` closure: the nearest candidate symbol and its distance.
With no candidate it returns the zero `Symbol` and distance 0, matching the
Go function's named-return defaults; `nearest[uint64(min)][0]` is the first
candidate (in symbol order) at the minimal distance. -/
def symbolicateOne (addr : Nat) (symbols : List Symbol) : Symbol × Nat :=
  let cands := symCandidates addr symbols
  match minDist cands with
  | none => (⟨"", 0, 0⟩, 0)
  | some m =>
    match cands.find? (fun c => c.1 == m) with
    | some c => (c.2, m)
    | none => (⟨"", 0, 0⟩, 0)

/-- Lowercase hexadecimal rendering used by `fmt.Sprintf("%x", n)`. -/
def hexStr (n : Nat) : String := (Nat.toDigits 16 n).asString

/-- `Usercorn.Symbolicate` (`usercorn.go:225-270`) with `Demangle` disabled:
offsets from `base` and `interpBase` are formed with `uint64` wraparound,
each image's nearest symbol is computed, the interpreter's candidate wins
only with a strictly smaller distance (ties prefer the main image) or when
the main image has none, and a positive distance is rendered as
`name+0xN`. -/
def Symbolicate (addr base interpBase : Nat) (symbols interpSym : List Symbol) : String :=
  let s := symbolicateOne ((addr + u64Mod - base % u64Mod) % u64Mod) symbols
  let i := symbolicateOne ((addr + u64Mod - interpBase % u64Mod) % u64Mod) interpSym
  let r := if (i.2 < s.2 ∧ i.1.Name ≠ "") ∨ s.1.Name = "" then i else s
  if r.1.Name ≠ "" ∧ 0 < r.2 then r.1.Name ++ "+0x" ++ hexStr r.2 else r.1.Name

/-- Deadlock-detection state of the code hook in `Usercorn.addHooks`
(`usercorn.go:360-405`): the PC of the previously executed instruction and
the counter of consecutive same-PC observations. -/
structure CodeHookState where
  lastCode : Nat
  deadlock : Nat
deriving DecidableEq, Repr

/-- One firing of the code hook (installed when `TraceExec` is set), reduced
to its deadlock logic: on the same PC as last time the counter is
incremented, reset to 0 if any register changed since the previous
observation (`changes.Count() > 0`), and the FATAL print plus `Stop` fire
when the counter exceeds 2; a different PC resets the counter.  Returns the
new state and whether the fatal stop fired. -/
def codeHookStep (s : CodeHookState) (pc changesCount : Nat) : CodeHookState × Bool :=
  if pc = s.lastCode then
    let d1 := s.deadlock + 1
    let d2 := if 0 < changesCount then 0 else d1
    (⟨pc, d2⟩, decide (2 < d2))
  else (⟨pc, 0⟩, false)

/-- Address-space slice of the emulator state relevant to `Brk`: the brk
high-water mark and the list of `(addr, size, prot)` regions mapped so
far. -/
structure BrkState where
  brk : Nat
  maps : List (Nat × Nat × Nat)
deriving DecidableEq, Repr

/-- Modelled from the spec: `MemMapProt(addr, size, prot)` of the guest
memory facade "maps (addr, addr+size) with exact protection"; the spec
names no failure condition, so the model always succeeds and records the
region. -/
def MemMapProt (s : BrkState) (addr size prot : Nat) : BrkState :=
  { s with maps := (addr, size, prot) :: s.maps }

/-- `Usercorn.Brk` (`usercorn.go:272-282`): a positive address maps
`[brk, addr)` read-write (the Go size operand `addr - u.brk` wraps on
`uint64`) and advances `brk`; the new or unchanged `brk` is returned. -/
def Brk (s : BrkState) (addr : Nat) : BrkState × Nat :=
  if 0 < addr then
    let s' := MemMapProt s s.brk ((addr + u64Mod - s.brk % u64Mod) % u64Mod)
      (PROT_READ ||| PROT_WRITE)
    ({ s' with brk := addr }, addr)
  else (s, s.brk)

/-- Run a sequence of `Brk` calls left to right. -/
def brkRun (s : BrkState) : List Nat → BrkState
  | [] => s
  | a :: rest => brkRun (Brk s a).1 rest

/-- Every call of the sequence is either a query (`0`) or at or above the
brk value current at its point, the situation the claim describes. -/
def validBrkCalls (s : BrkState) : List Nat → Prop
  | [] => True
  | a :: rest => (a = 0 ∨ s.brk ≤ a) ∧ validBrkCalls (Brk s a).1 rest

/-- Loader file type: `loader.EXEC`, `loader.DYN`, or anything else
(`OTHER`), which `mapBinary` rejects as an unsupported load type. -/
inductive LoadType where
  | EXEC
  | DYN
  | OTHER
deriving DecidableEq, Repr

/-- Opaque loader capability as `mapBinary` consumes it: file type, raw
segments, entry point, architecture tag, and the interpreter's loader when
`Interp()` is non-empty.  Modelled from the spec for the part outside src/:
`loader.LoadFileArch` resolving and parsing the interpreter path is
represented by nesting the interpreter's loader directly (`none` stands for
an empty `Interp()`). -/
inductive Loader where
  | mk (ltype : LoadType) (segments : List SegmentData) (entry : Nat)
      (arch : String) (interp : Option Loader)

/-- Entry point reported by the loader, `l.Entry()`. -/
def Loader.entry : Loader → Nat
  | .mk _ _ e _ _ => e

/-- Architecture tag reported by the loader, `l.Arch()`. -/
def Loader.arch : Loader → String
  | .mk _ _ _ a _ => a

/-- Modelled from the spec: `u.Mmap(hint, size)` "reserves a page-aligned
region of ≥ size bytes; returns the actual base".  The model returns the
hint; the precise address choice belongs to the CPU facade and does not
affect the properties proved here. -/
def uMmap (hint _size : Nat) : Nat := hint

/-- The two configured base overrides of the driver, `ForceBase` and
`ForceInterpBase`. -/
structure MapConfig where
  ForceBase : Nat
  ForceInterpBase : Nat
deriving DecidableEq, Repr

/-- `Usercorn.mapBinary` (`usercorn.go:470-548`), returning
`(interpBase, entry, base, binEntry)` or an error.  The merge step is
`mapSegments`/`mergeSegments` above; the load-bias fold mirrors the mapping
loop, where a DYN image's zero-based merged span allocates the bias through
`Mmap(0x1000000, size)` when no override is active.  Mapping and
segment-data writes do not influence the returned tuple and are not
tracked; the interpreter branch recurses with `isInterp = true` and
reshuffles the recursive tuple exactly as the Go `return` does. -/
def mapBinary (cfg : MapConfig) : Loader → Bool → Except String (Nat × Nat × Nat × Nat)
  | Loader.mk ty segs ent arch interp, isInterp =>
    if ty = LoadType.OTHER then .error "Unsupported file load type."
    else
      let merged := mergeSegments (segs.map alignSeg)
      let loadBias0 := if isInterp then cfg.ForceInterpBase else cfg.ForceBase
      let loadBias := merged.foldl
        (fun lb seg =>
          if ty = LoadType.DYN ∧ seg.Start = 0 ∧ lb = 0 then
            uMmap 0x1000000 (seg.End - seg.Start)
          else lb)
        loadBias0
      let entry := loadBias + ent
      match interp, isInterp with
      | some bin, false =>
        if bin.arch ≠ arch then .error "Interpreter arch mismatch"
        else
          match mapBinary cfg bin true with
          | .ok (_, _, interpBias, interpEntry) => .ok (interpBias, interpEntry, loadBias, entry)
          | .error e => .error e
      | _, _ => .ok (0, entry, loadBias, entry)

/-- Absolute-path test of Go's `filepath.IsAbs` on Unix (stdlib, modelled):
the path begins with a slash. -/
def isAbs (path : String) : Bool := path.data.head? == some '/'

/-- Join of the load-prefix directory with an absolute path, as Go's
`filepath.Join(dir, path)` (stdlib, modelled) yields it for a clean prefix
directory and a clean absolute path: their concatenation. -/
def joinPath (dir path : String) : String := dir ++ path

/-- `Usercorn.PrefixPath` (`usercorn.go:213-223`): with a non-empty
configured load prefix and an absolute path, the joined path is returned
when `force` is set or when the joined path exists on the host;
otherwise — and always for relative paths or an empty prefix — the path is
returned unchanged.  `statMissing` is the host's `os.IsNotExist(os.Stat …)`
report, so existence is its negation, exactly as in the Go code. -/
def PrefixPath (pre : String) (statMissing : String → Bool) (path : String)
    (force : Bool) : String :=
  if isAbs path = true ∧ pre ≠ "" then
    let target := joinPath pre path
    if force = true ∨ statMissing target = false then target else path
  else path

/-- Typed argument-slot kinds of a syscall input signature (`sys.In`). -/
inductive ArgKind where
  | Fd
  | Buf
  | Obuf
  | Len
  | Off
  | Ptr
  | IntArg
deriving DecidableEq, Repr

/-- A kernel syscall as the dispatcher sees it: the input signature, whose
length drives `getArgs(len(sys.In))`, and the handler producing the guest
return word. -/
structure SyscallDef where
  In : List ArgKind
  Call : List Nat → Nat

/-- Kernel personality capability: `UsercornSyscall(name)` yields the
syscall implementation or nothing. -/
structure Kernel where
  UsercornSyscall : String → Option SyscallDef

/-- Result of `Usercorn.Syscall`: a normal return value, an argument-fetch
error propagated to the caller, or one of the two fatal panics. -/
inductive SysOutcome where
  | ret (v : Nat)
  | argError
  | panicMissing (num : Nat)
  | panicNotFound (name : String)

/-- The kernel walk inside `Usercorn.Syscall`: personalities are consulted
in order and the first whose `UsercornSyscall(name)` is non-nil services
the call, fetching exactly `len(sys.In)` argument words. -/
def syscallWalk (kernels : List Kernel) (name : String)
    (getArgs : Nat → Option (List Nat)) : SysOutcome :=
  match kernels with
  | [] => .panicNotFound name
  | k :: rest =>
    match k.UsercornSyscall name with
    | some sys =>
      match getArgs sys.In.length with
      | some args => .ret (sys.Call args)
      | none => .argError
    | none => syscallWalk rest name getArgs

/-- `Usercorn.Syscall` (`usercorn.go:563-587`): an empty name is a fatal
SyscallMissing panic; otherwise the kernels are walked in order, and a name
no personality services is a fatal KernelNotFound panic. -/
def Syscall (kernels : List Kernel) (num : Nat) (name : String)
    (getArgs : Nat → Option (List Nat)) : SysOutcome :=
  if name = "" then .panicMissing num else syscallWalk kernels name getArgs

/-- Byte-truncation `name[:n]` of a Go string, for the ASCII paths these
claims concern (Lean chars coincide with bytes there). -/
def strTake (s : String) (n : Nat) : String := ⟨s.data.take n⟩

/-- Result of the Readlink syscall against the guest: either the
`UINT64_MAX` placeholder error, or the bytes packed into the guest buffer
together with the returned length. -/
inductive ReadlinkResult where
  | err
  | ok (guestBytes : String) (ret : Nat)
deriving DecidableEq, Repr

/-- `PosixKernel.Readlink` (`posix/io.go:165-186`): `/proc/self/exe` under a
Linux guest short-circuits to the emulator's host-resolved executable path
(`k.U.Exe()`); any other path consults the host's `os.Readlink`, whose
failure yields the placeholder error.  The name is truncated to at most
`size-1` bytes (signed comparison `len(name) > int(size)-1`), packed
NUL-terminated into the guest buffer, and its (possibly truncated) length
returned.  Pack errors are not modelled: the buffer write is represented by
the returned bytes themselves. -/
def Readlink (osName exe : String) (hostReadlink : String → Option String)
    (path : String) (size : Nat) : ReadlinkResult :=
  match (if path = "/proc/self/exe" ∧ osName = "linux" then some exe
         else hostReadlink path) with
  | none => .err
  | some name =>
    let name := if (size : Int) - 1 < (name.length : Int) then strTake name (size - 1)
      else name
    .ok (name ++ "\x00") name.length

/-- Modelled from the spec: `Errno(err)` (posix package, not under src/)
maps a host error to the guest errno convention — "an unsigned word
(negative errno in two's-complement)"; no error maps to 0. -/
def Errno : Option Nat → Nat
  | none => 0
  | some e => (u64Mod - e % u64Mod) % u64Mod

/-- `PosixKernel.Close` (`posix/io.go:46-52`): fd 2 is special-cased to
return 0 without closing the host descriptor (the FIXME hack preserving
output on program exit); any other fd is closed on the host (`hostClose`
oracle, `none` meaning success) and the result errno-converted.  The Bool
records whether the host close ran. -/
def Close (hostClose : Int → Option Nat) (fd : Int) : Nat × Bool :=
  if fd = 2 then (0, false)
  else (Errno (hostClose fd), true)

/-- Effect of the guest-facing Mmap syscall: the returned address, the
region mapped through the facade as `(addr, size, prot)`, and the data
written into guest memory from a host fd. -/
structure MmapEffect where
  ret : Nat
  mapped : Nat × Nat × Nat
  writes : List (Nat × List Nat)
deriving DecidableEq, Repr

/-- `PosixKernel.Mmap` (`posix/mman.go:10-22`): the guest region comes from
`u.Mmap(addrHint, size)` — the facade allocation whose default protection
is R|W (spec §4.2, modelled by recording that protection) — and the `prot`
and `flags` parameters are never read; if `fd > 0`, up to `size` bytes are
read from the host fd at offset `off` (through a duplicated descriptor,
modelled by the `hostRead` oracle) and written at the returned address, a
failed read writing nothing (`n, _ := f.Read` discards the error); the
allocated address is returned unconditionally. -/
def PosixMmap (hostRead : Int → Nat → Nat → Option (List Nat))
    (addrHint size prot flags : Nat) (fd : Int) (off : Nat) : MmapEffect :=
  let addr := uMmap addrHint size
  let writes :=
    if 0 < fd then
      match hostRead fd off size with
      | some bytes => [(addr, bytes.take size)]
      | none => [(addr, ([] : List Nat))]
    else []
  ⟨addr, (addr, size, PROT_READ ||| PROT_WRITE), writes⟩

/-- `PosixKernel.Mmap2` (`posix/mman.go:24-26`) forwards all arguments to
`Mmap` unchanged. -/
def PosixMmap2 (hostRead : Int → Nat → Nat → Option (List Nat))
    (addrHint size prot flags : Nat) (fd : Int) (off : Nat) : MmapEffect :=
  PosixMmap hostRead addrHint size prot flags fd off

theorem covers_nil (a : Nat) : covers [] a ↔ False := by
  simp [covers]

theorem covers_cons {x : Segment} {l : List Segment} {a : Nat} :
    covers (x :: l) a ↔ inSeg x a ∨ covers l a := by
  simp [covers]

theorem inSeg_merge_of_overlaps {s o : Segment} (h : s.Overlaps o) (a : Nat) :
    inSeg (s.Merge o) a ↔ inSeg s a ∨ inSeg o a := by
  simp only [Segment.Overlaps] at h
  simp only [inSeg, Segment.Merge]
  omega

theorem covers_insertMerged (merged : List Segment) (s : Segment) (a : Nat) :
    covers (insertMerged merged s) a ↔ covers merged a ∨ inSeg s a := by
  induction merged with
  | nil => simp [insertMerged, covers_cons, covers_nil]
  | cons s2 rest ih =>
    by_cases h : s2.Overlaps s
    · simp only [insertMerged, if_pos h, covers_cons, inSeg_merge_of_overlaps h]
      tauto
    · simp only [insertMerged, if_neg h, covers_cons, ih]
      tauto

theorem covers_foldl_insertMerged (spans acc : List Segment) (a : Nat) :
    covers (spans.foldl insertMerged acc) a ↔ covers acc a ∨ covers spans a := by
  induction spans generalizing acc with
  | nil => simp [covers_nil]
  | cons s rest ih =>
    simp only [List.foldl_cons, ih, covers_insertMerged, covers_cons]
    tauto

theorem mem_insertMerged {merged : List Segment} {s t : Segment}
    (ht : t ∈ insertMerged merged s) :
    t ∈ merged ∨ t = s ∨ ∃ t' ∈ merged, t = t'.Merge s := by
  induction merged with
  | nil =>
    simp only [insertMerged, List.mem_singleton] at ht
    tauto
  | cons s2 rest ih =>
    by_cases h : s2.Overlaps s
    · simp only [insertMerged, if_pos h, List.mem_cons] at ht
      rcases ht with rfl | ht
      · exact Or.inr (Or.inr ⟨s2, List.mem_cons_self s2 rest, rfl⟩)
      · exact Or.inl (List.mem_cons_of_mem _ ht)
    · simp only [insertMerged, if_neg h, List.mem_cons] at ht
      rcases ht with rfl | ht
      · exact Or.inl (List.mem_cons_self t rest)
      · rcases ih ht with h1 | h2 | ⟨t', ht', rfl⟩
        · exact Or.inl (List.mem_cons_of_mem _ h1)
        · exact Or.inr (Or.inl h2)
        · exact Or.inr (Or.inr ⟨t', List.mem_cons_of_mem _ ht', rfl⟩)

theorem protOfParts_foldl (spans : List Segment) (S : List Segment)
    (hspans : ∀ s ∈ spans, s ∈ S) (acc : List Segment)
    (hacc : ∀ t ∈ acc, ProtOfParts S t) :
    ∀ t ∈ spans.foldl insertMerged acc, ProtOfParts S t := by
  induction spans generalizing acc with
  | nil => exact hacc
  | cons s rest ih =>
    refine ih (fun x hx => hspans x (List.mem_cons_of_mem _ hx)) _ ?_
    intro t ht
    rcases mem_insertMerged ht with h1 | rfl | ⟨t', ht', rfl⟩
    · exact hacc t h1
    · exact ⟨[t], by simp, by simpa using hspans t (List.mem_cons_self t rest),
        by simp [protOr]⟩
    · obtain ⟨parts, hne, hmem, hprot⟩ := hacc t' ht'
      refine ⟨s :: parts, by simp, ?_, ?_⟩
      · intro p hp
        rcases List.mem_cons.mp hp with rfl | hp
        · exact hspans p (List.mem_cons_self p rest)
        · exact hmem p hp
      · show (t'.Merge s).Prot = protOr (s :: parts)
        simp only [Segment.Merge, protOr, List.foldr_cons, hprot]
        exact Nat.lor_comm _ _

theorem covers_mapSegments (segs : List SegmentData) (a : Nat) :
    covers (mapSegments segs) a ↔ covers (segs.map alignSeg) a := by
  unfold mapSegments mergeSegments
  rw [covers_foldl_insertMerged]
  simp [covers_nil]

theorem protOfParts_mapSegments (segs : List SegmentData) (t : Segment)
    (ht : t ∈ mapSegments segs) : ProtOfParts (segs.map alignSeg) t := by
  refine protOfParts_foldl (segs.map alignSeg) (segs.map alignSeg)
    (fun s hs => hs) [] ?_ t ht
  intro t ht
  simp at ht

/-- C1, counterexample: on the raw segments `[0x1000,0x3000) R`,
`[0x5000,0x7000) W`, `[0x2000,0x6000) X`, the third span bridges the first
two, is merged only into the first, and the merge result
`[[0x1000,0x6000) R|X, [0x5000,0x7000) W]` is neither pairwise disjoint nor
a fixed point of merging. -/
theorem mapBinary_merge_not_disjoint_counterexample :
    ¬ (pairwiseDisjoint
        (mapSegments [⟨0x1000, 0x2000, PROT_READ⟩, ⟨0x5000, 0x2000, PROT_WRITE⟩,
          ⟨0x2000, 0x4000, PROT_EXEC⟩])
      ∧ mergeSegments
          (mapSegments [⟨0x1000, 0x2000, PROT_READ⟩, ⟨0x5000, 0x2000, PROT_WRITE⟩,
            ⟨0x2000, 0x4000, PROT_EXEC⟩])
        = mapSegments [⟨0x1000, 0x2000, PROT_READ⟩, ⟨0x5000, 0x2000, PROT_WRITE⟩,
            ⟨0x2000, 0x4000, PROT_EXEC⟩]) := by
  decide

/-- C1 (amended): the merge step of `mapBinary` preserves the union of the
page-aligned input intervals, gives every merged span a protection that is
the bitwise OR of its constituents' protections, and merges the two
overlapping example segments `[0x1000,0x3000) R` and `[0x2000,0x4000) W`
into the single span `[0x1000,0x4000) R|W`; however (unlike the original
claim) the result is not always pairwise disjoint nor a fixed point of
merging, because a span that bridges two earlier non-overlapping spans is
merged only into the first of them. -/
theorem mapBinary_merge_union_protOr_example :
    (∀ (segs : List SegmentData) (a : Nat),
      covers (mapSegments segs) a ↔ covers (segs.map alignSeg) a)
    ∧ (∀ (segs : List SegmentData) (t : Segment),
        t ∈ mapSegments segs → ProtOfParts (segs.map alignSeg) t)
    ∧ mapSegments [⟨0x1000, 0x2000, PROT_READ⟩, ⟨0x2000, 0x2000, PROT_WRITE⟩]
        = [⟨0x1000, 0x4000, PROT_READ ||| PROT_WRITE⟩] :=
  ⟨covers_mapSegments, protOfParts_mapSegments, by decide⟩

/-- Witness for the amended C1 theorem at a concrete input: the single span
produced for the two example segments indeed carries an OR-of-constituents
protection, and union preservation holds at address `0x2000`. -/
theorem mapBinary_merge_union_protOr_example_witness :
    ProtOfParts
      ([⟨0x1000, 0x2000, PROT_READ⟩,
        (⟨0x2000, 0x2000, PROT_WRITE⟩ : SegmentData)].map alignSeg)
      ⟨0x1000, 0x4000, PROT_READ ||| PROT_WRITE⟩ := by
  refine mapBinary_merge_union_protOr_example.2.1
    [⟨0x1000, 0x2000, PROT_READ⟩, ⟨0x2000, 0x2000, PROT_WRITE⟩]
    ⟨0x1000, 0x4000, PROT_READ ||| PROT_WRITE⟩ ?_
  decide

theorem Symbolicate_main_of_not_closer (addr base interpBase : Nat)
    (symbols interpSym : List Symbol)
    (hle : ¬ (symbolicateOne ((addr + u64Mod - interpBase % u64Mod) % u64Mod) interpSym).2
        < (symbolicateOne ((addr + u64Mod - base % u64Mod) % u64Mod) symbols).2)
    (hname : (symbolicateOne ((addr + u64Mod - base % u64Mod) % u64Mod) symbols).1.Name ≠ "") :
    Symbolicate addr base interpBase symbols interpSym
      = (if 0 < (symbolicateOne ((addr + u64Mod - base % u64Mod) % u64Mod) symbols).2 then
          (symbolicateOne ((addr + u64Mod - base % u64Mod) % u64Mod) symbols).1.Name ++ "+0x"
            ++ hexStr (symbolicateOne ((addr + u64Mod - base % u64Mod) % u64Mod) symbols).2
        else (symbolicateOne ((addr + u64Mod - base % u64Mod) % u64Mod) symbols).1.Name) := by
  have hcond : ¬ (((symbolicateOne ((addr + u64Mod - interpBase % u64Mod) % u64Mod) interpSym).2
        < (symbolicateOne ((addr + u64Mod - base % u64Mod) % u64Mod) symbols).2
      ∧ (symbolicateOne ((addr + u64Mod - interpBase % u64Mod) % u64Mod) interpSym).1.Name ≠ "")
      ∨ (symbolicateOne ((addr + u64Mod - base % u64Mod) % u64Mod) symbols).1.Name = "") := by
    push_neg
    exact ⟨fun h => absurd h hle, hname⟩
  unfold Symbolicate
  dsimp only
  rw [if_neg hcond]
  by_cases hpos :
      0 < (symbolicateOne ((addr + u64Mod - base % u64Mod) % u64Mod) symbols).2
  · rw [if_pos ⟨hname, hpos⟩, if_pos hpos]
  · rw [if_neg (fun hc => hpos hc.2), if_neg hpos]

theorem codeHookStep_same (pc d : Nat) :
    codeHookStep ⟨pc, d⟩ pc 0 = (⟨pc, d + 1⟩, decide (2 < d + 1)) := by
  simp [codeHookStep]

/-- C3: with instruction tracing enabled, four consecutive code-hook
observations of the same PC with no register change between them make the
fatal deadlock print-and-`Stop` fire at the fourth observation; an
observation at the same PC with a register change resets the deadlock
counter to 0 and does not itself fire, so after such a change-separated
observation the following two change-free observations of the same PC can
never fire the fatal stop. -/
theorem codeHook_deadlock_detection :
    (∀ (s : CodeHookState) (pc c1 : Nat),
      (codeHookStep (codeHookStep (codeHookStep (codeHookStep s pc c1).1 pc 0).1 pc 0).1
        pc 0).2 = true)
    ∧ (∀ (pc d c : Nat), codeHookStep ⟨pc, d⟩ pc (c + 1) = (⟨pc, 0⟩, false))
    ∧ (∀ (pc d c : Nat),
        (codeHookStep (codeHookStep ⟨pc, d⟩ pc (c + 1)).1 pc 0).2 = false
        ∧ (codeHookStep (codeHookStep (codeHookStep ⟨pc, d⟩ pc (c + 1)).1 pc 0).1
            pc 0).2 = false) := by
  refine ⟨?_, ?_, ?_⟩
  · intro s pc c1
    have h1 : ∃ d, (codeHookStep s pc c1).1 = ⟨pc, d⟩ := by
      unfold codeHookStep
      by_cases h : pc = s.lastCode
      · rw [if_pos h]
        exact ⟨_, rfl⟩
      · rw [if_neg h]
        exact ⟨0, rfl⟩
    obtain ⟨d, hd⟩ := h1
    rw [hd, codeHookStep_same]
    rw [show ((⟨pc, d + 1⟩, decide (2 < d + 1)) : CodeHookState × Bool).1 = ⟨pc, d + 1⟩
      from rfl, codeHookStep_same]
    rw [show ((⟨pc, d + 2⟩, decide (2 < d + 2)) : CodeHookState × Bool).1 = ⟨pc, d + 2⟩
      from rfl, codeHookStep_same]
    simp
  · intro pc d c
    simp [codeHookStep]
  · intro pc d c
    have h1 : (codeHookStep ⟨pc, d⟩ pc (c + 1)).1 = ⟨pc, 0⟩ := by
      simp [codeHookStep]
    rw [h1, codeHookStep_same]
    refine ⟨rfl, ?_⟩
    rw [show ((⟨pc, 0 + 1⟩, decide (2 < 0 + 1)) : CodeHookState × Bool).1 = ⟨pc, 1⟩
      from rfl, codeHookStep_same]
    rfl

/-- C4: `Brk(0)` returns the current brk and changes nothing; `Brk(a)` with
`a` at or above the current brk (positive, below `2^64`) maps the range
from the current brk to `a` read-write, sets `brk = a` and returns the new
value; across any sequence of `Brk` calls each of which is `0` or at or
above the brk current at its point, the brk value is monotonically
non-decreasing. -/
theorem Brk_spec :
    (∀ s : BrkState, Brk s 0 = (s, s.brk))
    ∧ (∀ (s : BrkState) (a : Nat), s.brk ≤ a → 0 < a → a < u64Mod →
        Brk s a = (⟨a, (s.brk, a - s.brk, PROT_READ ||| PROT_WRITE) :: s.maps⟩, a))
    ∧ (∀ (s : BrkState) (calls : List Nat), validBrkCalls s calls →
        s.brk ≤ (brkRun s calls).brk) := by
  refine ⟨?_, ?_, ?_⟩
  · intro s
    simp [Brk]
  · intro s a h1 h2 h3
    have h64 : u64Mod = 18446744073709551616 := by norm_num [u64Mod]
    have hsz : (a + u64Mod - s.brk % u64Mod) % u64Mod = a - s.brk := by
      rw [h64] at h3 ⊢
      omega
    unfold Brk MemMapProt
    rw [if_pos h2, hsz]
  · intro s calls
    induction calls generalizing s with
    | nil => exact fun _ => Nat.le_refl _
    | cons a rest ih =>
      intro hv
      obtain ⟨ha, hrest⟩ := hv
      have hstep : s.brk ≤ (Brk s a).1.brk := by
        rcases Nat.eq_zero_or_pos a with h0 | hpos
        · subst h0
          simp [Brk]
        · unfold Brk MemMapProt
          rw [if_pos hpos]
          rcases ha with h0 | hle
          · exact absurd (h0 ▸ hpos) (Nat.lt_irrefl 0)
          · exact hle
      exact Nat.le_trans hstep (ih _ hrest)

/-- Witness for the C4 theorem at a concrete input: raising brk from
`0x2000` to `0x3000` maps `[0x2000, 0x3000)` read-write and returns
`0x3000`. -/
theorem Brk_spec_witness :
    Brk ⟨0x2000, []⟩ 0x3000
      = (⟨0x3000, [(0x2000, 0x1000, PROT_READ ||| PROT_WRITE)]⟩, 0x3000) :=
  Brk_spec.2.1 ⟨0x2000, []⟩ 0x3000 (by norm_num) (by norm_num) (by norm_num [u64Mod])

theorem mapBinary_interp_ok (cfg : MapConfig) (l : Loader) (r : Nat × Nat × Nat × Nat)
    (h : mapBinary cfg l true = .ok r) :
    r.1 = 0 ∧ r.2.2.2 = r.2.1 ∧ r.2.1 = r.2.2.1 + l.entry := by
  cases l with
  | mk ty segs ent arch interp =>
    by_cases hty : ty = LoadType.OTHER
    · simp [mapBinary, hty] at h
    · cases interp with
      | none =>
        simp only [mapBinary, if_neg hty] at h
        rw [Except.ok.injEq] at h
        subst h
        exact ⟨rfl, rfl, rfl⟩
      | some bin =>
        simp only [mapBinary, if_neg hty] at h
        rw [Except.ok.injEq] at h
        subst h
        exact ⟨rfl, rfl, rfl⟩

/-- C5: for a successfully loaded binary, when the loader carries an
interpreter (and the call is not itself loading the interpreter) the
returned tuple satisfies `entry = interpBase + interp.Entry()` and
`binEntry = base + main.Entry()`; with no interpreter it satisfies
`interpBase = 0` and `entry = binEntry = base + main.Entry()`. -/
theorem mapBinary_entry_selection :
    (∀ (cfg : MapConfig) (ty : LoadType) (segs : List SegmentData) (ent : Nat)
        (arch : String) (bin : Loader) (ib e b be : Nat),
      mapBinary cfg (.mk ty segs ent arch (some bin)) false = .ok (ib, e, b, be) →
        e = ib + bin.entry ∧ be = b + ent)
    ∧ (∀ (cfg : MapConfig) (ty : LoadType) (segs : List SegmentData) (ent : Nat)
        (arch : String) (ib e b be : Nat),
      mapBinary cfg (.mk ty segs ent arch none) false = .ok (ib, e, b, be) →
        ib = 0 ∧ e = be ∧ e = b + ent) := by
  constructor
  · intro cfg ty segs ent arch bin ib e b be h
    by_cases hty : ty = LoadType.OTHER
    · simp [mapBinary, hty] at h
    · simp only [mapBinary, if_neg hty] at h
      by_cases harch : bin.arch ≠ arch
      · rw [if_pos harch] at h
        cases h
      · rw [if_neg harch] at h
        cases hrec : mapBinary cfg bin true with
        | error err =>
          rw [hrec] at h
          cases h
        | ok r' =>
          obtain ⟨ib', e', b', be'⟩ := r'
          have hs := mapBinary_interp_ok cfg bin (ib', e', b', be') hrec
          dsimp only at hs
          rw [hrec] at h
          simp only [Except.ok.injEq, Prod.mk.injEq] at h
          obtain ⟨h1, h2, h3, h4⟩ := h
          obtain ⟨g1, g2, g3⟩ := hs
          omega
  · intro cfg ty segs ent arch ib e b be h
    by_cases hty : ty = LoadType.OTHER
    · simp [mapBinary, hty] at h
    · simp only [mapBinary, if_neg hty] at h
      simp only [Except.ok.injEq, Prod.mk.injEq] at h
      obtain ⟨h1, h2, h3, h4⟩ := h
      omega

/-- Witness for the C5 theorem: a concrete EXEC main image at entry
`0x1100` with a DYN interpreter (entry offset `0x40`, biased to
`0x1000000`) produces `entry = interpBase + 0x40` and
`binEntry = base + 0x1100`. -/
theorem mapBinary_entry_selection_witness :
    (0x1000040 : Nat) = 0x1000000 + Loader.entry (.mk .DYN [⟨0, 0x1000, 5⟩] 0x40 "x86" none)
    ∧ (0x1100 : Nat) = 0 + 0x1100 :=
  mapBinary_entry_selection.1 ⟨0, 0⟩ LoadType.EXEC [⟨0x1000, 0x100, 5⟩] 0x1100 "x86"
    (.mk .DYN [⟨0, 0x1000, 5⟩] 0x40 "x86" none) 0x1000000 0x1000040 0 0x1100 rfl

/-- C6: with a non-empty load prefix and an absolute path, `PrefixPath`
returns the joined path exactly when `force` is set or the joined path
exists on the host, and the original path otherwise; a relative path, or
any path under an empty prefix, is always returned unchanged. -/
theorem PrefixPath_spec :
    (∀ (pre : String) (stat : String → Bool) (path : String) (force : Bool),
      pre ≠ "" → isAbs path = true → (force = true ∨ stat (joinPath pre path) = false) →
      PrefixPath pre stat path force = joinPath pre path)
    ∧ (∀ (pre : String) (stat : String → Bool) (path : String),
      pre ≠ "" → isAbs path = true → stat (joinPath pre path) = true →
      PrefixPath pre stat path false = path)
    ∧ (∀ (pre : String) (stat : String → Bool) (path : String) (force : Bool),
      isAbs path = false → PrefixPath pre stat path force = path)
    ∧ (∀ (stat : String → Bool) (path : String) (force : Bool),
      PrefixPath "" stat path force = path) := by
  refine ⟨?_, ?_, ?_, ?_⟩
  · intro pre stat path force hpre habs hcond
    unfold PrefixPath
    rw [if_pos ⟨habs, hpre⟩, if_pos hcond]
  · intro pre stat path hpre habs hstat
    unfold PrefixPath
    rw [if_pos ⟨habs, hpre⟩, if_neg]
    rintro (hf | hm)
    · cases hf
    · rw [hstat] at hm
      cases hm
  · intro pre stat path force habs
    unfold PrefixPath
    rw [if_neg]
    rintro ⟨h1, _⟩
    rw [habs] at h1
    cases h1
  · intro stat path force
    unfold PrefixPath
    rw [if_neg]
    rintro ⟨_, h2⟩
    exact h2 rfl

/-- Witness for the C6 theorem: the absolute path `/lib/x.so` under the
prefix `/root` rewrites to `/root/lib/x.so` when the joined path exists on
the host. -/
theorem PrefixPath_spec_witness :
    PrefixPath "/root" (fun _ => false) "/lib/x.so" false = "/root/lib/x.so" := by
  have h := PrefixPath_spec.1 "/root" (fun _ => false) "/lib/x.so" false
    (by decide) (by decide) (Or.inr rfl)
  rw [h]
  decide

/-- C7: `Syscall` fails fatally (SyscallMissing) on an empty name; the
first personality in list order whose `UsercornSyscall(name)` is non-nil
services the call, fetching exactly `len(sys.In)` arguments and returning
the handler's result (an argument-fetch failure is returned as an error);
a name serviced by no personality fails fatally (KernelNotFound).  In
particular, with personalities `[A, B]` both implementing a name, A
services the call. -/
theorem Syscall_dispatch :
    (∀ (kernels : List Kernel) (num : Nat) (getArgs : Nat → Option (List Nat)),
      Syscall kernels num "" getArgs = .panicMissing num)
    ∧ (∀ (kernels : List Kernel) (num : Nat) (name : String)
        (getArgs : Nat → Option (List Nat)),
      name ≠ "" → (∀ k ∈ kernels, k.UsercornSyscall name = none) →
      Syscall kernels num name getArgs = .panicNotFound name)
    ∧ (∀ (a b : Kernel) (rest : List Kernel) (num : Nat) (name : String)
        (getArgs : Nat → Option (List Nat)) (sys : SyscallDef),
      name ≠ "" → a.UsercornSyscall name = some sys →
      Syscall (a :: b :: rest) num name getArgs
        = match getArgs sys.In.length with
          | some args => SysOutcome.ret (sys.Call args)
          | none => SysOutcome.argError) := by
  refine ⟨?_, ?_, ?_⟩
  · intro kernels num getArgs
    simp [Syscall]
  · intro kernels num name getArgs hname hnone
    unfold Syscall
    rw [if_neg hname]
    induction kernels with
    | nil => rfl
    | cons k rest ih =>
      unfold syscallWalk
      rw [hnone k (List.mem_cons_self k rest)]
      exact ih fun k' hk' => hnone k' (List.mem_cons_of_mem _ hk')
  · intro a b rest num name getArgs sys hname ha
    unfold Syscall
    rw [if_neg hname]
    unfold syscallWalk
    rw [ha]

/-- Witness for the C7 theorem: with two concrete personalities both
implementing `"open"`, the first one's handler (returning 3) services the
call. -/
theorem Syscall_dispatch_witness :
    Syscall
      [⟨fun n => if n = "open" then
          some ⟨[ArgKind.IntArg, ArgKind.IntArg], fun _ => 3⟩ else none⟩,
       ⟨fun n => if n = "open" then some ⟨[], fun _ => 7⟩ else none⟩]
      5 "open" (fun n => some (List.range n)) = SysOutcome.ret 3 := by
  rw [Syscall_dispatch.2.2
    ⟨fun n => if n = "open" then
        some ⟨[ArgKind.IntArg, ArgKind.IntArg], fun _ => 3⟩ else none⟩
    ⟨fun n => if n = "open" then some ⟨[], fun _ => 7⟩ else none⟩
    [] 5 "open" (fun n => some (List.range n))
    ⟨[ArgKind.IntArg, ArgKind.IntArg], fun _ => 3⟩
    (by decide) (by simp)]

/-- C8: under a Linux guest, `Readlink("/proc/self/exe", buf, size)` writes
the emulator's host-resolved executable path NUL-terminated into the guest
buffer, truncated to at most `size-1` bytes, and returns the length of the
(possibly truncated) path, never consulting the host readlink; in
particular with exe `/tmp/hello` and size 64 the guest buffer receives
`"/tmp/hello\x00"` and the return value is 10. -/
theorem Readlink_proc_self_exe :
    (∀ (exe : String) (host : String → Option String) (size : Nat),
      exe.length + 1 ≤ size →
      Readlink "linux" exe host "/proc/self/exe" size
        = ReadlinkResult.ok (exe ++ "\x00") exe.length)
    ∧ (∀ (exe : String) (host : String → Option String) (size : Nat),
      1 ≤ size → size ≤ exe.length →
      Readlink "linux" exe host "/proc/self/exe" size
        = ReadlinkResult.ok (strTake exe (size - 1) ++ "\x00") (size - 1))
    ∧ (∀ host : String → Option String,
      Readlink "linux" "/tmp/hello" host "/proc/self/exe" 64
        = ReadlinkResult.ok "/tmp/hello\x00" 10) := by
  refine ⟨?_, ?_, ?_⟩
  · intro exe host size hsz
    unfold Readlink
    rw [if_pos ⟨rfl, rfl⟩]
    dsimp only
    rw [if_neg (by omega)]
  · intro exe host size h1 h2
    unfold Readlink
    rw [if_pos ⟨rfl, rfl⟩]
    dsimp only
    rw [if_pos (by omega)]
    have hdl : exe.data.length = exe.length := rfl
    have hlen : (strTake exe (size - 1)).length = size - 1 := by
      show (exe.data.take (size - 1)).length = size - 1
      rw [List.length_take, hdl]
      omega
    rw [hlen]
  · intro host
    unfold Readlink
    rw [if_pos ⟨rfl, rfl⟩]
    decide

/-- Witness for the C8 theorem: the concrete example, with a host readlink
that always fails (showing it is never consulted). -/
theorem Readlink_proc_self_exe_witness :
    Readlink "linux" "/tmp/hello" (fun _ => none) "/proc/self/exe" 64
      = ReadlinkResult.ok "/tmp/hello\x00" 10 :=
  Readlink_proc_self_exe.1 "/tmp/hello" (fun _ => none) 64 (by decide)

/-- C9: `Close(2)` returns 0 without invoking the host close (the host
descriptor stays open); for every other fd the host close runs and its
errno conversion is returned. -/
theorem Close_stderr_preserved :
    (∀ hostClose : Int → Option Nat, Close hostClose 2 = (0, false))
    ∧ (∀ (hostClose : Int → Option Nat) (fd : Int), fd ≠ 2 →
        Close hostClose fd = (Errno (hostClose fd), true)) := by
  constructor
  · intro hostClose
    simp [Close]
  · intro hostClose fd hfd
    simp [Close, hfd]

/-- Witness for the C9 theorem: closing fd 1 with a succeeding host close
returns 0 with the host close invoked. -/
theorem Close_stderr_preserved_witness :
    Close (fun _ => none) 1 = (0, true) :=
  Close_stderr_preserved.2 (fun _ => none) 1 (by decide)

/-- C10: the `prot` and `flags` arguments of the guest Mmap syscall are
ignored — the region is mapped with the facade's default read-write
protection whatever was requested; `Mmap2` behaves identically to `Mmap`;
and the allocated base address is returned even when the fd-backed host
read fails. -/
theorem Mmap_prot_flags_ignored :
    (∀ (hostRead : Int → Nat → Nat → Option (List Nat))
        (addrHint size prot flags prot' flags' : Nat) (fd : Int) (off : Nat),
      PosixMmap hostRead addrHint size prot flags fd off
        = PosixMmap hostRead addrHint size prot' flags' fd off)
    ∧ (∀ (hostRead : Int → Nat → Nat → Option (List Nat))
        (addrHint size prot flags : Nat) (fd : Int) (off : Nat),
      (PosixMmap hostRead addrHint size prot flags fd off).mapped
        = (uMmap addrHint size, size, PROT_READ ||| PROT_WRITE))
    ∧ (∀ (hostRead : Int → Nat → Nat → Option (List Nat))
        (addrHint size prot flags : Nat) (fd : Int) (off : Nat),
      PosixMmap2 hostRead addrHint size prot flags fd off
        = PosixMmap hostRead addrHint size prot flags fd off)
    ∧ (∀ (hostRead : Int → Nat → Nat → Option (List Nat))
        (addrHint size prot flags : Nat) (fd : Int) (off : Nat),
      (PosixMmap hostRead addrHint size prot flags fd off).ret
        = (PosixMmap (fun _ _ _ => none) addrHint size prot flags fd off).ret) := by
  refine ⟨?_, ?_, ?_, ?_⟩ <;> intros <;> rfl

/-- C2, counterexample: with symbols `[{"f",100,120},{"g",200,0}]` in the
main image at base `0x400000` and no interpreter symbols, the guest PC
`base+10000` symbolicates to `"g+0x2648"` — the open-ended symbol `g`
(`End == 0`) matches every offset at or above its start — and not to `""`
as the claim's third example states. -/
theorem Symbolicate_far_pc_counterexample :
    Symbolicate (0x400000 + 10000) 0x400000 0 [⟨"f", 100, 120⟩, ⟨"g", 200, 0⟩] []
      = "g+0x2648"
    ∧ ("g+0x2648" : String) ≠ "" :=
  ⟨by decide, by decide⟩

/-- C2 (amended): Symbolicate selects, per image, among the symbols with
nonzero start, nonempty name and offset inside the extent (or open-ended
when `End == 0`), the one minimizing `offset - Start`; the interpreter's
candidate is used only when strictly nearer (ties prefer the main image,
stated generally as the first conjunct); the bare name is returned at
distance 0 and `name+0xN` otherwise.  For the example symbols
`[{"f",100,120},{"g",200,0}]`: `pc = base+110` yields `"f+0xa"`,
`pc = base+200` yields `"g"`, and `pc = base+10000` yields `"g+0x2648"`
(not `""`: the open-ended `g` matches arbitrarily far offsets). -/
theorem Symbolicate_spec :
    (∀ (addr base interpBase : Nat) (symbols interpSym : List Symbol),
      ¬ (symbolicateOne ((addr + u64Mod - interpBase % u64Mod) % u64Mod) interpSym).2
          < (symbolicateOne ((addr + u64Mod - base % u64Mod) % u64Mod) symbols).2 →
      (symbolicateOne ((addr + u64Mod - base % u64Mod) % u64Mod) symbols).1.Name ≠ "" →
      Symbolicate addr base interpBase symbols interpSym
        = (if 0 < (symbolicateOne ((addr + u64Mod - base % u64Mod) % u64Mod) symbols).2 then
            (symbolicateOne ((addr + u64Mod - base % u64Mod) % u64Mod) symbols).1.Name ++ "+0x"
              ++ hexStr (symbolicateOne ((addr + u64Mod - base % u64Mod) % u64Mod) symbols).2
          else (symbolicateOne ((addr + u64Mod - base % u64Mod) % u64Mod) symbols).1.Name))
    ∧ Symbolicate (0x400000 + 110) 0x400000 0 [⟨"f", 100, 120⟩, ⟨"g", 200, 0⟩] [] = "f+0xa"
    ∧ Symbolicate (0x400000 + 200) 0x400000 0 [⟨"f", 100, 120⟩, ⟨"g", 200, 0⟩] [] = "g"
    ∧ Symbolicate (0x400000 + 10000) 0x400000 0 [⟨"f", 100, 120⟩, ⟨"g", 200, 0⟩] []
        = "g+0x2648" :=
  ⟨Symbolicate_main_of_not_closer, by decide, by decide, by decide⟩

/-- Witness for the amended C2 theorem: a concrete tie between the main
image and the interpreter (both nearest symbols at distance 0x32) resolves
to the main image's symbol. -/
theorem Symbolicate_spec_witness :
    Symbolicate (0x400000 + 150) 0x400000 0x400000 [⟨"m", 100, 200⟩] [⟨"i", 100, 200⟩]
      = "m+0x32" := by
  have h := Symbolicate_spec.1 (0x400000 + 150) 0x400000 0x400000
    [⟨"m", 100, 200⟩] [⟨"i", 100, 200⟩] (by decide) (by decide)
  rw [h]
  decide

end UsercornProof
